import Mathlib

/-!
Shallow embedding of `libs/gltfio/src/BindingHelper.cpp`: the `UrlCache`
blob cache with its deferred-destruction protocol, and
`BindingHelper::loadResources` with its URI classification and loading
helpers (`isBase64`, `isFile`, `loadBase64`, `loadFile`).

Modelling conventions:
- C pointers (`void*`, `const uint8_t*`) are modelled as `Nat` addresses,
  with `0` standing for `nullptr`; pointer arithmetic `offset + (uint8_t*) data`
  becomes `Nat` addition.
- C strings are modelled as Lean `String` / `List Char` (no interior NUL,
  non-null).
- The `tsl::robin_map` is modelled as an association list whose
  `operator[] =` assigns in place when the key is present (overwriting the
  old value) and appends otherwise, exactly like the C++ map.
- The external `cgltf_load_buffer_base64` / `cgltf_load_buffer_file`
  primitives (and the base path baked into the file reader) are abstracted
  as a pluggable `Loaders` capability returning an address, `0` on failure,
  mirroring the `result != cgltf_result_success => nullptr` convention.
- `delete cache` cannot be expressed directly, so the cache carries a ghost
  field `destroyCount` incremented each time the code would execute
  `delete`; similarly `LoadState` carries ghost traces (`loaderCalls`,
  `resolved`, `dispatches`, `examined`) recording what the loop did.
  Ghost fields are write-only for the embedded code: no embedded branch
  reads them, so they do not alter control flow.
-/

namespace gltfio

/-- Model of `strchr(s, ',')`: index of the first comma, if any. -/
def firstCommaIdx : List Char → Option Nat
  | [] => none
  | c :: rest => if c = ',' then some 0 else (firstCommaIdx rest).map (· + 1)

/-- Model of `strstr(cs, pat) != nullptr`: some position of `cs` starts
with `pat`. -/
def strstrFound : List Char → List Char → Bool
  | [], pat => decide (pat = [])
  | c :: rest, pat => decide ((c :: rest).take pat.length = pat) || strstrFound rest pat

/-- Lookup in the association-list model of `tsl::robin_map`
(`find` returning `end` = `none`). -/
def mapFind : List (String × Nat) → String → Option Nat
  | [], _ => none
  | (k', v') :: rest, k => if k' = k then some v' else mapFind rest k

/-- `m[k] = v` on the association-list model of `tsl::robin_map`:
assigns in place if the key is present, appends otherwise. -/
def mapAssign : List (String × Nat) → String → Nat → List (String × Nat)
  | [], k, v => [(k, v)]
  | (k', v') :: rest, k, v =>
    if k' = k then (k', v) :: rest else (k', v') :: mapAssign rest k v

/-- One `BufferBinding` (field subset used by `loadResources`).  The four
target pointers are modelled as Booleans: the code only tests them for
non-null. -/
structure BufferBinding where
  uri : String
  offset : Nat
  size : Nat
  totalSize : Nat
  vertexBuffer : Bool
  indexBuffer : Bool
  animationBuffer : Bool
  orientationBuffer : Bool
  bufferIndex : Nat
deriving DecidableEq, Repr

/-- The `UrlCache` object: blob map, pending-upload counter (`int` in the
source, hence `Int`), owner-destroyed flag, plus the ghost `destroyCount`
(number of times the code would have run `delete`). -/
structure UrlCache where
  mOwnerDestroyed : Bool
  mPendingUploads : Int
  mBlobs : List (String × Nat)
  destroyCount : Nat
deriving DecidableEq, Repr

/-- `UrlCache::getResource`: `nullptr` (0) when absent, the stored pointer
otherwise. -/
def UrlCache.getResource (c : UrlCache) (uri : String) : Nat :=
  match mapFind c.mBlobs uri with
  | none => 0
  | some v => v

/-- `UrlCache::addResource`: `mBlobs[uri] = blob;`. -/
def UrlCache.addResource (c : UrlCache) (uri : String) (blob : Nat) : UrlCache :=
  { c with mBlobs := mapAssign c.mBlobs uri blob }

/-- `UrlCache::addPendingUpload`: `++mPendingUploads;`. -/
def UrlCache.addPendingUpload (c : UrlCache) : UrlCache :=
  { c with mPendingUploads := c.mPendingUploads + 1 }

/-- `UrlCache::onLoadedResource`: decrement and `delete` when the count
hits zero after the owner is gone. -/
def UrlCache.onLoadedResource (c : UrlCache) : UrlCache :=
  if c.mPendingUploads - 1 = 0 ∧ c.mOwnerDestroyed then
    { c with mPendingUploads := c.mPendingUploads - 1,
             destroyCount := c.destroyCount + 1 }
  else
    { c with mPendingUploads := c.mPendingUploads - 1 }

/-- `UrlCache::onOwnerDestroyed`: `delete` at once when no uploads are
pending, otherwise set the flag. -/
def UrlCache.onOwnerDestroyed (c : UrlCache) : UrlCache :=
  if c.mPendingUploads = 0 then
    { c with destroyCount := c.destroyCount + 1 }
  else
    { c with mOwnerDestroyed := true }

/-- A freshly constructed `UrlCache` (`BindingHelper`'s constructor). -/
def emptyUrlCache : UrlCache := ⟨false, 0, [], 0⟩

/-- The calls that touch the cache's lifecycle state: `addPendingUpload`
from the loading thread, `onLoadedResource` from the engine's completion
threads, `onOwnerDestroyed` from `~BindingHelper`. -/
inductive CacheEvent where
  | addUpload
  | loadComplete
  | ownerDestroy
deriving DecidableEq, Repr

/-- Apply one lifecycle call to the cache. -/
def cacheStep (c : UrlCache) : CacheEvent → UrlCache
  | .addUpload => c.addPendingUpload
  | .loadComplete => c.onLoadedResource
  | .ownerDestroy => c.onOwnerDestroyed

/-- Run a sequence of lifecycle calls (one interleaving order). -/
def cacheRun (c : UrlCache) (es : List CacheEvent) : UrlCache :=
  es.foldl cacheStep c

/-- `BindingHelper::isBase64`: `data:` prefix, and the 7 characters before
the *first* comma are `;base64`. -/
def isBase64 (uri : String) : Bool :=
  let cs := uri.toList
  if cs.take 5 = "data:".toList then
    match firstCommaIdx cs with
    | some i => decide (7 ≤ i) && decide ((cs.drop (i - 7)).take 7 = ";base64".toList)
    | none => false
  else false

/-- `BindingHelper::isFile`: no `://` substring. -/
def isFile (uri : String) : Bool :=
  !strstrFound uri.toList "://".toList

/-- The abstract loader capability standing for the external
`cgltf_load_buffer_base64` / `cgltf_load_buffer_file` primitives: each
returns the address of the loaded bytes, `0` on decode/IO failure.  The
base path of the file reader is baked into the capability. -/
structure Loaders where
  decodeBase64 : String → Nat → Nat
  readFile : String → Nat → Nat

/-- `BindingHelper::loadBase64`: re-check the `data:`/first-comma/`;base64`
shape, then hand the payload after the comma to the decoder. -/
def loadBase64 (L : Loaders) (uri : String) (totalSize : Nat) : Nat :=
  let cs := uri.toList
  if cs.take 5 = "data:".toList then
    match firstCommaIdx cs with
    | some i =>
      if 7 ≤ i ∧ (cs.drop (i - 7)).take 7 = ";base64".toList then
        L.decodeBase64 (String.mk (cs.drop (i + 1))) totalSize
      else 0
    | none => 0
  else 0

/-- `BindingHelper::loadFile`: read the file relative to the base path. -/
def loadFile (L : Loaders) (uri : String) (totalSize : Nat) : Nat :=
  L.readFile uri totalSize

/-- Which consumer a binding's byte range was handed to. -/
inductive DispatchKind where
  | vertexUpload
  | indexUpload
  | animationCopy
  | orientationCopy
deriving DecidableEq, Repr

/-- Ghost record of one dispatch: the consumer, the byte-range start
`bb.offset + (uint8_t*) data`, and its length. -/
structure Dispatch where
  kind : DispatchKind
  ucdata : Nat
  size : Nat
deriving DecidableEq, Repr

/-- State threaded through the `loadResources` loop: the cache, plus ghost
traces of loader invocations, per-binding resolved data pointers,
dispatches, and bindings examined. -/
structure LoadState where
  cache : UrlCache
  loaderCalls : List String
  resolved : List (String × Nat)
  dispatches : List Dispatch
  examined : List String
deriving DecidableEq, Repr

/-- The resolution phase of one `loadResources` iteration: cache hit, else
classify and load (recording the loader call and caching the result, even
a null one), else fail (`none` = `return false`). -/
def resolveData (L : Loaders) (st : LoadState) (bb : BufferBinding) :
    Option (Nat × LoadState) :=
  let d := st.cache.getResource bb.uri
  if d ≠ 0 then
    some (d, st)
  else if isBase64 bb.uri then
    let v := loadBase64 L bb.uri bb.totalSize
    some (v, { st with cache := st.cache.addResource bb.uri v,
                       loaderCalls := st.loaderCalls ++ [bb.uri] })
  else if isFile bb.uri then
    let v := loadFile L bb.uri bb.totalSize
    some (v, { st with cache := st.cache.addResource bb.uri v,
                       loaderCalls := st.loaderCalls ++ [bb.uri] })
  else
    none

/-- The dispatch phase of one `loadResources` iteration: vertex/index
targets count a pending upload; animation/orientation targets are plain
copies; no target at all fails (`none` = `return false`). -/
def dispatchBinding (st : LoadState) (bb : BufferBinding) (data : Nat) :
    Option LoadState :=
  let ucdata := bb.offset + data
  if bb.vertexBuffer then
    some { st with cache := st.cache.addPendingUpload,
                   dispatches := st.dispatches ++ [⟨.vertexUpload, ucdata, bb.size⟩] }
  else if bb.indexBuffer then
    some { st with cache := st.cache.addPendingUpload,
                   dispatches := st.dispatches ++ [⟨.indexUpload, ucdata, bb.size⟩] }
  else if bb.animationBuffer then
    some { st with dispatches := st.dispatches ++ [⟨.animationCopy, ucdata, bb.size⟩] }
  else if bb.orientationBuffer then
    some { st with dispatches := st.dispatches ++ [⟨.orientationCopy, ucdata, bb.size⟩] }
  else
    none

/-- One iteration of the `loadResources` loop body: resolve the binding's
URI, then dispatch its byte range; `.error` carries the state at an early
`return false`, `.ok` the state handed to the next iteration. -/
def stepBinding (L : Loaders) (st : LoadState) (bb : BufferBinding) :
    Except LoadState LoadState :=
  match resolveData L { st with examined := st.examined ++ [bb.uri] } bb with
  | none => .error { st with examined := st.examined ++ [bb.uri] }
  | some (d, st1) =>
    match dispatchBinding { st1 with resolved := st1.resolved ++ [(bb.uri, d)] } bb d with
    | none => .error { st1 with resolved := st1.resolved ++ [(bb.uri, d)] }
    | some st3 => .ok st3

/-- The `loadResources` loop over the binding sequence, with early exit on
failure.  (The trailing `computeTangents` pass touches none of the state
modelled here and is an unfinished stub in the source.) -/
def loadResourcesGo (L : Loaders) (st : LoadState) :
    List BufferBinding → Bool × LoadState
  | [] => (true, st)
  | bb :: rest =>
    match stepBinding L st bb with
    | .error stf => (false, stf)
    | .ok st3 => loadResourcesGo L st3 rest

/-- The state at entry to `loadResources` on a fresh `BindingHelper`. -/
def initState : LoadState := ⟨emptyUrlCache, [], [], [], []⟩

/-- `BindingHelper::loadResources` on a fresh helper. -/
def loadResources (L : Loaders) (bs : List BufferBinding) : Bool × LoadState :=
  loadResourcesGo L initState bs

/-- The URI classification exactly as claim C3 words it: begins with
`data:` and contains *some* comma whose 7 preceding characters equal
`;base64`.  Stated from the claim's words, for comparison with the
source-derived `isBase64`. -/
def claimIsBase64 (uri : String) : Bool :=
  let cs := uri.toList
  decide (cs.take 5 = "data:".toList) &&
    (List.range cs.length).any fun i =>
      decide (cs.get? i = some ',') && decide (7 ≤ i) &&
        decide ((cs.drop (i - 7)).take 7 = ";base64".toList)

/-- Induction invariant for the destruction protocol: after `k` completions
and `j ∈ {0,1}` owner signals out of `n` expected completions, the counter
is `n - k`, destruction has happened exactly when everything is in
(`j = 1 ∧ k = n`), and the flag is set exactly as the code leaves it. -/
def C1Inv (n k j : Nat) (c : UrlCache) : Prop :=
  c.mPendingUploads = (n : Int) - (k : Int) ∧
  c.destroyCount = (if j = 1 ∧ k = n then 1 else 0) ∧
  (j = 0 → c.mOwnerDestroyed = false) ∧
  (j = 1 → k < n → c.mOwnerDestroyed = true)

/-- Invariant for the deduplication claim, for one URI `u` whose loads all
succeed: either `u` has never been requested (no cache entry, no loader
call, no resolution of `u`), or it has been loaded at most once to a
non-null blob `v` that the cache returns and that every resolution of `u`
reused. -/
def DedupInv (u : String) (st : LoadState) : Prop :=
  (st.cache.getResource u = 0 ∧ st.loaderCalls.count u = 0 ∧
    ∀ pr ∈ st.resolved, pr.1 = u → False) ∨
  (∃ v, v ≠ 0 ∧ st.cache.getResource u = v ∧ st.loaderCalls.count u ≤ 1 ∧
    ∀ pr ∈ st.resolved, pr.1 = u → pr.2 = v)

/-- A loader capability in which both external primitives fail
(return null). -/
def failLoaders : Loaders := ⟨fun _ _ => 0, fun _ _ => 0⟩

/-- A binding to an external file URI, targeting a vertex buffer. -/
def meshBinding : BufferBinding := ⟨"mesh.bin", 4, 8, 8, true, false, false, false, 0⟩

/-- Loader capability for the three-binding scenario: three distinct file
URIs, each resolving to its own blob. -/
def scenarioLoaders : Loaders :=
  ⟨fun _ _ => 0,
   fun u _ =>
     if u = "a.bin" then 100 else if u = "b.bin" then 200
     else if u = "c.bin" then 300 else 0⟩

/-- The three bindings of the scenario: two vertex-buffer targets with
distinct URIs and one animation-buffer copy with a third URI. -/
def scenarioBindings : List BufferBinding :=
  [⟨"a.bin", 0, 10, 10, true, false, false, false, 0⟩,
   ⟨"b.bin", 4, 10, 10, true, false, false, false, 1⟩,
   ⟨"c.bin", 0, 10, 10, false, false, true, false, 0⟩]

/-! ## Lemmas about the lifecycle state machine -/

lemma cacheRun_cons (c : UrlCache) (e : CacheEvent) (es : List CacheEvent) :
    cacheRun c (e :: es) = cacheRun (cacheStep c e) es := rfl

lemma onLoadedResource_pending (c : UrlCache) :
    c.onLoadedResource.mPendingUploads = c.mPendingUploads - 1 := by
  unfold UrlCache.onLoadedResource
  split <;> rfl

lemma onOwnerDestroyed_pending (c : UrlCache) :
    c.onOwnerDestroyed.mPendingUploads = c.mPendingUploads := by
  unfold UrlCache.onOwnerDestroyed
  split <;> rfl

/-- The pending-upload counter after any call sequence is the initial value
plus the number of `addPendingUpload` calls minus the number of completion
callbacks: no other call changes it. -/
lemma cacheRun_pending (es : List CacheEvent) : ∀ c : UrlCache,
    (cacheRun c es).mPendingUploads =
      c.mPendingUploads + es.count .addUpload - es.count .loadComplete := by
  induction es with
  | nil => intro c; simp [cacheRun]
  | cons e es ih =>
    intro c
    rw [cacheRun_cons, ih]
    cases e <;>
      simp [cacheStep, UrlCache.addPendingUpload, onLoadedResource_pending,
        onOwnerDestroyed_pending, List.count_cons] <;>
      omega

lemma c1_step_load (n k j : Nat) (c : UrlCache)
    (hk1 : k + 1 ≤ n) (hj : j ≤ 1) (hinv : C1Inv n k j c) :
    C1Inv n (k + 1) j c.onLoadedResource := by
  obtain ⟨hp, hd, hf1, hf2⟩ := hinv
  unfold UrlCache.onLoadedResource
  by_cases hcond : c.mPendingUploads - 1 = 0 ∧ c.mOwnerDestroyed = true
  · obtain ⟨hz, hflag⟩ := hcond
    have hj1 : j = 1 := by
      rcases Nat.le_one_iff_eq_zero_or_eq_one.mp hj with h0 | h1
      · rw [hf1 h0] at hflag; cases hflag
      · exact h1
    have hkn : k + 1 = n := by omega
    rw [if_pos ⟨hz, hflag⟩]
    refine ⟨by simp; omega, ?_, ?_, ?_⟩
    · have hkn' : ¬ k = n := by omega
      simp [hd, hkn', hj1, hkn]
    · intro h0; omega
    · intro _ hlt; omega
  · rw [if_neg hcond]
    have hnz : ¬ c.mPendingUploads - 1 = 0 ∨ c.mOwnerDestroyed = false := by
      by_cases hb : c.mOwnerDestroyed = true
      · left; intro hz; exact hcond ⟨hz, hb⟩
      · right; simpa using hb
    refine ⟨by simp; omega, ?_, fun h0 => hf1 h0, fun h1 hlt => hf2 h1 (by omega)⟩
    have hne : ¬ (j = 1 ∧ k + 1 = n) := by
      rintro ⟨hj1, hkn⟩
      have hflag : c.mOwnerDestroyed = true := hf2 hj1 (by omega)
      have hz : c.mPendingUploads - 1 = 0 := by omega
      exact hcond ⟨hz, hflag⟩
    have hne' : ¬ (j = 1 ∧ k = n) := by omega
    simp only [hd, if_neg hne, if_neg hne']

lemma c1_step_owner (n k : Nat) (c : UrlCache)
    (_hk : k ≤ n) (hinv : C1Inv n k 0 c) :
    C1Inv n k 1 c.onOwnerDestroyed := by
  obtain ⟨hp, hd, hf1, _⟩ := hinv
  have hflag := hf1 rfl
  have hd0 : c.destroyCount = 0 := by simpa using hd
  unfold UrlCache.onOwnerDestroyed
  by_cases hz : c.mPendingUploads = 0
  · have hkn : k = n := by omega
    rw [if_pos hz]
    exact ⟨by simpa using hp, by simp [hd0, hkn], by omega, fun _ hlt => by omega⟩
  · have hkn : ¬ k = n := by omega
    rw [if_neg hz]
    exact ⟨by simpa using hp, by simp [hd0, hkn], by omega, fun _ _ => rfl⟩

lemma c1_run (es : List CacheEvent) : ∀ (n k j : Nat) (c : UrlCache),
    es.count .addUpload = 0 →
    k + es.count .loadComplete ≤ n →
    j + es.count .ownerDestroy ≤ 1 →
    C1Inv n k j c →
    C1Inv n (k + es.count .loadComplete) (j + es.count .ownerDestroy)
      (cacheRun c es) := by
  induction es with
  | nil =>
    intro n k j c _ _ _ h
    simpa [cacheRun] using h
  | cons e es ih =>
    intro n k j c hadd hk hj hinv
    cases e with
    | addUpload => simp [List.count_cons] at hadd
    | loadComplete =>
      have hcl : (CacheEvent.loadComplete :: es).count .loadComplete
          = es.count .loadComplete + 1 := by simp [List.count_cons]
      have hco : (CacheEvent.loadComplete :: es).count .ownerDestroy
          = es.count .ownerDestroy := by simp [List.count_cons]
      have hca : es.count .addUpload = 0 := by
        simp [List.count_cons] at hadd; exact hadd
      rw [hcl] at hk ⊢
      rw [hco] at hj ⊢
      rw [cacheRun_cons]
      have hstep : C1Inv n (k + 1) j (cacheStep c .loadComplete) :=
        c1_step_load n k j c (by omega) (by omega) hinv
      have := ih n (k + 1) j (cacheStep c .loadComplete) hca (by omega) hj hstep
      rw [show k + (es.count .loadComplete + 1) = k + 1 + es.count .loadComplete
        from by omega]
      exact this
    | ownerDestroy =>
      have hcl : (CacheEvent.ownerDestroy :: es).count .loadComplete
          = es.count .loadComplete := by simp [List.count_cons]
      have hco : (CacheEvent.ownerDestroy :: es).count .ownerDestroy
          = es.count .ownerDestroy + 1 := by simp [List.count_cons]
      have hca : es.count .addUpload = 0 := by
        simp [List.count_cons] at hadd; exact hadd
      rw [hcl] at hk ⊢
      rw [hco] at hj ⊢
      have hj0 : j = 0 := by omega
      have hoe : es.count .ownerDestroy = 0 := by omega
      subst hj0
      rw [cacheRun_cons]
      have hstep : C1Inv n k 1 (cacheStep c .ownerDestroy) :=
        c1_step_owner n k c (by omega) hinv
      have := ih n k 1 (cacheStep c .ownerDestroy) hca hk (by omega) hstep
      rw [show 0 + (es.count .ownerDestroy + 1) = 1 + es.count .ownerDestroy
        from by omega]
      exact this

lemma c1_inv_init (n : Nat) : C1Inv n 0 0 ⟨false, (n : Int), [], 0⟩ := by
  refine ⟨by simp, by simp, fun _ => rfl, fun h _ => by cases h⟩

/-! ## Lemmas about string scanning -/

/-- `firstCommaIdx` finds exactly the first comma: the character at `i` is
a comma and no earlier character is. -/
lemma firstCommaIdx_eq_some (cs : List Char) : ∀ i,
    firstCommaIdx cs = some i ↔
      (cs.get? i = some ',' ∧ ∀ j, j < i → cs.get? j ≠ some ',') := by
  induction cs with
  | nil => intro i; simp [firstCommaIdx]
  | cons c rest ih =>
    intro i
    by_cases hc : c = ','
    · subst hc
      simp only [firstCommaIdx, if_pos rfl]
      constructor
      · intro h
        injection h with h
        subst h
        exact ⟨rfl, fun j hj => absurd hj (Nat.not_lt_zero j)⟩
      · rintro ⟨h1, h2⟩
        cases i with
        | zero => rfl
        | succ i' => exact absurd rfl (h2 0 (Nat.succ_pos i'))
    · simp only [firstCommaIdx, if_neg hc]
      cases i with
      | zero => simp [Option.map_eq_some', hc]
      | succ i' =>
        constructor
        · intro h
          obtain ⟨a, ha, hae⟩ := Option.map_eq_some'.mp h
          have ha' : firstCommaIdx rest = some i' := by
            rw [show i' = a from by omega]; exact ha
          obtain ⟨hg, hlt⟩ := (ih i').mp ha'
          refine ⟨by simpa using hg, ?_⟩
          intro j hj
          cases j with
          | zero => simp [hc]
          | succ j' =>
            have := hlt j' (by omega)
            simpa using this
        · rintro ⟨h1, h2⟩
          have h1' : rest.get? i' = some ',' := by simpa using h1
          have h2' : ∀ j, j < i' → rest.get? j ≠ some ',' := by
            intro j hj
            have := h2 (j + 1) (by omega)
            simpa using this
          rw [(ih i').mpr ⟨h1', h2'⟩]
          rfl

/-- `strstrFound` finds exactly the positions where a copy of `pat`
starts. -/
lemma strstrFound_iff (pat : List Char) : ∀ cs : List Char,
    strstrFound cs pat = true ↔ ∃ k, (cs.drop k).take pat.length = pat := by
  intro cs
  induction cs with
  | nil =>
    simp only [strstrFound, decide_eq_true_eq]
    constructor
    · intro h; exact ⟨0, by simp [h]⟩
    · rintro ⟨k, hk⟩; simpa using hk.symm
  | cons c rest ih =>
    simp only [strstrFound, Bool.or_eq_true, decide_eq_true_eq]
    constructor
    · rintro (h | h)
      · exact ⟨0, by simpa using h⟩
      · obtain ⟨k, hk⟩ := ih.mp h
        exact ⟨k + 1, by simpa using hk⟩
    · rintro ⟨k, hk⟩
      cases k with
      | zero => exact Or.inl (by simpa using hk)
      | succ k' => exact Or.inr (ih.mpr ⟨k', by simpa using hk⟩)

/-- `isFile` holds exactly when no position of the URI starts with
`://`. -/
lemma isFile_iff (uri : String) :
    isFile uri = true ↔ ¬ ∃ k, (uri.toList.drop k).take 3 = "://".toList := by
  have hlen : ("://".toList).length = 3 := rfl
  constructor
  · intro h hex
    have hfound : strstrFound uri.toList "://".toList = true := by
      rw [strstrFound_iff]
      rw [hlen]
      exact hex
    rw [isFile, hfound] at h
    cases h
  · intro h
    cases hb : strstrFound uri.toList "://".toList with
    | false => unfold isFile; rw [hb]; rfl
    | true =>
      exfalso
      apply h
      have := (strstrFound_iff "://".toList uri.toList).mp hb
      rwa [hlen] at this

/-! ## Lemmas about the loading loop -/

/-- `resolveData` with its `let` bindings inlined. -/
lemma resolveData_eq (L : Loaders) (st : LoadState) (bb : BufferBinding) :
    resolveData L st bb =
      if st.cache.getResource bb.uri ≠ 0 then
        some (st.cache.getResource bb.uri, st)
      else if isBase64 bb.uri then
        some (loadBase64 L bb.uri bb.totalSize,
          { st with
            cache := st.cache.addResource bb.uri (loadBase64 L bb.uri bb.totalSize),
            loaderCalls := st.loaderCalls ++ [bb.uri] })
      else if isFile bb.uri then
        some (loadFile L bb.uri bb.totalSize,
          { st with
            cache := st.cache.addResource bb.uri (loadFile L bb.uri bb.totalSize),
            loaderCalls := st.loaderCalls ++ [bb.uri] })
      else none := rfl

/-- One step of the loading loop. -/
lemma loadResourcesGo_cons (L : Loaders) (st : LoadState) (bb : BufferBinding)
    (rest : List BufferBinding) :
    loadResourcesGo L st (bb :: rest) =
      match stepBinding L st bb with
      | .error stf => (false, stf)
      | .ok st3 => loadResourcesGo L st3 rest := rfl

/-- If the loop succeeds on a first batch of bindings, running the
concatenation is running the remainder from the reached state. -/
lemma loadResourcesGo_append (L : Loaders) (xs ys : List BufferBinding) :
    ∀ st, (loadResourcesGo L st xs).1 = true →
      loadResourcesGo L st (xs ++ ys) =
        loadResourcesGo L (loadResourcesGo L st xs).2 ys := by
  induction xs with
  | nil => intro st _; rfl
  | cons bb xs ih =>
    intro st h
    rw [loadResourcesGo_cons] at h
    simp only [List.cons_append, loadResourcesGo_cons]
    cases hs : stepBinding L st bb with
    | error stf => rw [hs] at h; simp at h
    | ok st3 =>
      rw [hs] at h
      exact ih st3 h

/-- Resolution never touches the pending-upload counter, the dispatch
trace or the examined trace. -/
lemma resolveData_preserves (L : Loaders) (st : LoadState) (bb : BufferBinding)
    (d : Nat) (st1 : LoadState) (hr : resolveData L st bb = some (d, st1)) :
    st1.cache.mPendingUploads = st.cache.mPendingUploads ∧
    st1.dispatches = st.dispatches ∧ st1.examined = st.examined := by
  rw [resolveData_eq] at hr
  split_ifs at hr <;>
    simp only [Option.some.injEq, Prod.mk.injEq] at hr
  · obtain ⟨-, rfl⟩ := hr; exact ⟨rfl, rfl, rfl⟩
  · obtain ⟨-, rfl⟩ := hr; exact ⟨rfl, rfl, rfl⟩
  · obtain ⟨-, rfl⟩ := hr; exact ⟨rfl, rfl, rfl⟩

/-- Dispatching never touches the blob map, the loader-call trace or the
resolution trace. -/
lemma dispatchBinding_preserves (st : LoadState) (bb : BufferBinding) (d : Nat)
    (st3 : LoadState) (h : dispatchBinding st bb d = some st3) :
    st3.cache.mBlobs = st.cache.mBlobs ∧ st3.loaderCalls = st.loaderCalls ∧
    st3.resolved = st.resolved := by
  unfold dispatchBinding at h
  split_ifs at h <;> injection h with h <;> subst h <;> exact ⟨rfl, rfl, rfl⟩

/-! ## Lemmas about the blob map -/

lemma mapFind_assign_self (m : List (String × Nat)) (k : String) (v : Nat) :
    mapFind (mapAssign m k v) k = some v := by
  induction m with
  | nil => simp [mapAssign, mapFind]
  | cons p rest ih =>
    obtain ⟨k0, v0⟩ := p
    by_cases h0 : k0 = k
    · simp [mapAssign, mapFind, h0]
    · simp [mapAssign, mapFind, h0, ih]

lemma mapFind_assign_ne (m : List (String × Nat)) (k k' : String) (v : Nat)
    (h : k' ≠ k) : mapFind (mapAssign m k' v) k = mapFind m k := by
  induction m with
  | nil => simp [mapAssign, mapFind, h]
  | cons p rest ih =>
    obtain ⟨k0, v0⟩ := p
    by_cases h0 : k0 = k'
    · subst h0; simp [mapAssign, mapFind, h]
    · simp [mapAssign, mapFind, h0, ih]

lemma getResource_addResource_self (c : UrlCache) (u : String) (v : Nat) :
    (c.addResource u v).getResource u = v := by
  simp [UrlCache.addResource, UrlCache.getResource, mapFind_assign_self]

lemma getResource_addResource_ne (c : UrlCache) (u u' : String) (v : Nat)
    (h : u' ≠ u) : (c.addResource u' v).getResource u = c.getResource u := by
  simp only [UrlCache.addResource, UrlCache.getResource]
  rw [mapFind_assign_ne c.mBlobs u u' v h]

/-! ## Lemmas about one loop step -/

/-- A step that fails keeps the pending-upload counter and dispatch trace
of the entry state, and has examined exactly one more binding. -/
lemma stepBinding_error_state (L : Loaders) (st : LoadState)
    (bb : BufferBinding) (stf : LoadState)
    (h : stepBinding L st bb = .error stf) :
    stf.cache.mPendingUploads = st.cache.mPendingUploads ∧
    stf.dispatches = st.dispatches ∧
    stf.examined = st.examined ++ [bb.uri] := by
  unfold stepBinding at h
  split at h
  · injection h with h
    subst h
    exact ⟨rfl, rfl, rfl⟩
  · rename_i d st1 hre
    split at h
    · injection h with h
      subst h
      obtain ⟨hp, hd, he⟩ := resolveData_preserves L _ bb d st1 hre
      exact ⟨hp, hd, he⟩
    · exact absurd h (by simp)

/-- A binding with no recognized target always makes the step fail. -/
lemma stepBinding_malformed (L : Loaders) (st : LoadState) (bb : BufferBinding)
    (h1 : bb.vertexBuffer = false) (h2 : bb.indexBuffer = false)
    (h3 : bb.animationBuffer = false) (h4 : bb.orientationBuffer = false) :
    ∃ stf, stepBinding L st bb = .error stf := by
  unfold stepBinding
  cases hr : resolveData L { st with examined := st.examined ++ [bb.uri] } bb with
  | none => exact ⟨_, rfl⟩
  | some pair =>
    obtain ⟨d, st1⟩ := pair
    have hdp : dispatchBinding
        { st1 with resolved := st1.resolved ++ [(bb.uri, d)] } bb d = none := by
      unfold dispatchBinding
      simp [h1, h2, h3, h4]
    simp only [hdp]
    exact ⟨_, rfl⟩

/-! ## Lemmas about deduplication -/

/-- Appending a resolution record for another URI preserves the
deduplication invariant. -/
lemma dedupInv_append_other (u : String) (st : LoadState) (pr0 : String × Nat)
    (h : ¬ pr0.1 = u) (hinv : DedupInv u st) :
    DedupInv u { st with resolved := st.resolved ++ [pr0] } := by
  rcases hinv with ⟨hg, hc, hr⟩ | ⟨v, hv, hg, hc, hr⟩
  · left
    refine ⟨hg, hc, ?_⟩
    intro pr hm hpu
    rcases List.mem_append.mp hm with hold | hnew
    · exact hr pr hold hpu
    · rw [List.mem_singleton.mp hnew] at hpu
      exact h hpu
  · right
    refine ⟨v, hv, hg, hc, ?_⟩
    intro pr hm hpu
    rcases List.mem_append.mp hm with hold | hnew
    · exact hr pr hold hpu
    · rw [List.mem_singleton.mp hnew] at hpu ⊢
      exact absurd hpu h

/-- Loading and caching another URI preserves the deduplication
invariant. -/
lemma dedupInv_load_other (u : String) (st : LoadState) (u' : String) (v : Nat)
    (h : ¬ u' = u) (hinv : DedupInv u st) :
    DedupInv u { st with cache := st.cache.addResource u' v,
                         loaderCalls := st.loaderCalls ++ [u'] } := by
  have hcnt : (st.loaderCalls ++ [u']).count u = st.loaderCalls.count u := by
    simp [List.count_append, List.count_singleton', h]
  have hres : (st.cache.addResource u' v).getResource u = st.cache.getResource u :=
    getResource_addResource_ne st.cache u u' v h
  rcases hinv with ⟨hg, hc, hr⟩ | ⟨w, hw, hg, hc, hr⟩
  · exact Or.inl ⟨by rw [hres]; exact hg, by rw [hcnt]; exact hc, hr⟩
  · exact Or.inr ⟨w, hw, by rw [hres]; exact hg, by rw [hcnt]; exact hc, hr⟩

/-- Resolution (with its resolution record appended) preserves the
deduplication invariant, provided loads of `u` always succeed. -/
lemma dedup_after_resolve (u : String) (L : Loaders)
    (h1 : isBase64 u = true → ∀ t, loadBase64 L u t ≠ 0)
    (h2 : isFile u = true → ∀ t, loadFile L u t ≠ 0)
    (st : LoadState) (bb : BufferBinding) (d : Nat) (st1 : LoadState)
    (hinv : DedupInv u st)
    (hr : resolveData L st bb = some (d, st1)) :
    DedupInv u { st1 with resolved := st1.resolved ++ [(bb.uri, d)] } := by
  rw [resolveData_eq] at hr
  by_cases hu : bb.uri = u
  · subst hu
    split_ifs at hr with hhit hb hf
    · simp only [Option.some.injEq, Prod.mk.injEq] at hr
      obtain ⟨hd, hst⟩ := hr
      subst hd
      subst hst
      rcases hinv with ⟨hg0, _, _⟩ | ⟨v, hv0, hgv, hcnt, hres⟩
      · exact absurd hg0 hhit
      · right
        refine ⟨v, hv0, hgv, hcnt, ?_⟩
        intro pr hm hpu
        rcases List.mem_append.mp hm with hold | hnew
        · exact hres pr hold hpu
        · rw [List.mem_singleton.mp hnew]
          exact hgv
    · simp only [Option.some.injEq, Prod.mk.injEq] at hr
      obtain ⟨hd, hst⟩ := hr
      subst hd
      subst hst
      rcases hinv with ⟨hg0, hc0, hr0⟩ | ⟨v, hv0, hgv, _, _⟩
      · right
        refine ⟨loadBase64 L bb.uri bb.totalSize, h1 hb bb.totalSize,
          getResource_addResource_self st.cache bb.uri _, ?_, ?_⟩
        · simp [List.count_append, hc0]
        · intro pr hm hpu
          rcases List.mem_append.mp hm with hold | hnew
          · exact (hr0 pr hold hpu).elim
          · rw [List.mem_singleton.mp hnew]
      · push_neg at hhit
        exact (hv0 (by rw [← hgv, hhit])).elim
    · simp only [Option.some.injEq, Prod.mk.injEq] at hr
      obtain ⟨hd, hst⟩ := hr
      subst hd
      subst hst
      rcases hinv with ⟨hg0, hc0, hr0⟩ | ⟨v, hv0, hgv, _, _⟩
      · right
        refine ⟨loadFile L bb.uri bb.totalSize, h2 hf bb.totalSize,
          getResource_addResource_self st.cache bb.uri _, ?_, ?_⟩
        · simp [List.count_append, hc0]
        · intro pr hm hpu
          rcases List.mem_append.mp hm with hold | hnew
          · exact (hr0 pr hold hpu).elim
          · rw [List.mem_singleton.mp hnew]
      · push_neg at hhit
        exact (hv0 (by rw [← hgv, hhit])).elim
  · split_ifs at hr with hhit hb hf
    · simp only [Option.some.injEq, Prod.mk.injEq] at hr
      obtain ⟨hd, hst⟩ := hr
      subst hd
      subst hst
      exact dedupInv_append_other u st (bb.uri, _) hu hinv
    · simp only [Option.some.injEq, Prod.mk.injEq] at hr
      obtain ⟨hd, hst⟩ := hr
      subst hd
      subst hst
      exact dedupInv_append_other u _ (bb.uri, _) hu
        (dedupInv_load_other u st bb.uri _ hu hinv)
    · simp only [Option.some.injEq, Prod.mk.injEq] at hr
      obtain ⟨hd, hst⟩ := hr
      subst hd
      subst hst
      exact dedupInv_append_other u _ (bb.uri, _) hu
        (dedupInv_load_other u st bb.uri _ hu hinv)

/-- Dispatch preserves the deduplication invariant. -/
lemma dedup_dispatch (u : String) (st : LoadState) (bb : BufferBinding)
    (d : Nat) (st3 : LoadState) (h : dispatchBinding st bb d = some st3)
    (hinv : DedupInv u st) : DedupInv u st3 := by
  obtain ⟨hb, hc, hrv⟩ := dispatchBinding_preserves st bb d st3 h
  have hg : st3.cache.getResource u = st.cache.getResource u := by
    unfold UrlCache.getResource
    rw [hb]
  unfold DedupInv at hinv ⊢
  rw [hg, hc, hrv]
  exact hinv

/-- One whole loop step preserves the deduplication invariant, on both the
early-exit state and the continuation state. -/
lemma dedup_step (u : String) (L : Loaders)
    (h1 : isBase64 u = true → ∀ t, loadBase64 L u t ≠ 0)
    (h2 : isFile u = true → ∀ t, loadFile L u t ≠ 0)
    (st : LoadState) (bb : BufferBinding) (hinv : DedupInv u st) :
    (∀ stf, stepBinding L st bb = .error stf → DedupInv u stf) ∧
    (∀ st3, stepBinding L st bb = .ok st3 → DedupInv u st3) := by
  constructor
  · intro stf h
    unfold stepBinding at h
    split at h
    · injection h with h
      subst h
      exact hinv
    · rename_i d st1 hre
      split at h
      · injection h with h
        subst h
        exact dedup_after_resolve u L h1 h2
          { st with examined := st.examined ++ [bb.uri] } bb d st1 hinv hre
      · exact absurd h (by simp)
  · intro st3 h
    unfold stepBinding at h
    split at h
    · exact absurd h (by simp)
    · rename_i d st1 hre
      split at h
      · exact absurd h (by simp)
      · rename_i st3' hdp
        injection h with h
        subst h
        exact dedup_dispatch u _ bb d st3' hdp
          (dedup_after_resolve u L h1 h2
            { st with examined := st.examined ++ [bb.uri] } bb d st1 hinv hre)

/-- The whole loop preserves the deduplication invariant. -/
lemma dedup_go (u : String) (L : Loaders)
    (h1 : isBase64 u = true → ∀ t, loadBase64 L u t ≠ 0)
    (h2 : isFile u = true → ∀ t, loadFile L u t ≠ 0) :
    ∀ (bs : List BufferBinding) (st : LoadState),
      DedupInv u st → DedupInv u (loadResourcesGo L st bs).2 := by
  intro bs
  induction bs with
  | nil => intro st h; exact h
  | cons bb rest ih =>
    intro st hinv
    rw [loadResourcesGo_cons]
    cases hs : stepBinding L st bb with
    | error stf => exact (dedup_step u L h1 h2 st bb hinv).1 stf hs
    | ok st3 => exact ih st3 ((dedup_step u L h1 h2 st bb hinv).2 st3 hs)

/-- Counting events in a run of completion callbacks. -/
lemma count_replicate_load (m : Nat) :
    (List.replicate m CacheEvent.loadComplete).count CacheEvent.loadComplete = m ∧
    (List.replicate m CacheEvent.loadComplete).count CacheEvent.addUpload = 0 := by
  induction m with
  | zero => exact ⟨rfl, rfl⟩
  | succ m ih => simp [List.replicate_succ, List.count_cons, ih.1, ih.2]

/-! ## Claim theorems -/

/-- Claim C1: for every interleaving order of one `onOwnerDestroyed` call
and the matching number `n` of `onLoadedResource` completion callbacks
against a cache holding `n` pending uploads, exactly one of the calls
deletes the cache (the whole run has `destroyCount = 1`), and no proper
prefix of the interleaving has deleted it — so no call destroys the cache
before both the owner has signaled release and the pending count has
drained to zero. -/
theorem cache_destroyed_exactly_once (n : Nat) (es : List CacheEvent)
    (h0 : es.count .addUpload = 0)
    (h1 : es.count .ownerDestroy = 1)
    (h2 : es.count .loadComplete = n) :
    (cacheRun ⟨false, (n : Int), [], 0⟩ es).destroyCount = 1 ∧
    ∀ p q, es = p ++ q → q ≠ [] →
      (cacheRun ⟨false, (n : Int), [], 0⟩ p).destroyCount = 0 := by
  constructor
  · have hrun := c1_run es n 0 0 ⟨false, (n : Int), [], 0⟩ h0 (by omega)
      (by omega) (c1_inv_init n)
    rw [h1, h2] at hrun
    obtain ⟨_, hd, _, _⟩ := hrun
    simpa using hd
  · intro p q hpq hq
    have hadd : p.count .addUpload = 0 := by
      have hx := h0; rw [hpq, List.count_append] at hx; omega
    have hkn : p.count .loadComplete ≤ n := by
      have hx := h2; rw [hpq, List.count_append] at hx; omega
    have hje : p.count .ownerDestroy ≤ 1 := by
      have hx := h1; rw [hpq, List.count_append] at hx; omega
    have hrun := c1_run p n 0 0 ⟨false, (n : Int), [], 0⟩ hadd (by omega)
      (by omega) (c1_inv_init n)
    obtain ⟨_, hd, _, _⟩ := hrun
    have hne : ¬ (0 + p.count .ownerDestroy = 1 ∧
        0 + p.count .loadComplete = n) := by
      rcases q with _ | ⟨e, q'⟩
      · exact absurd rfl hq
      · cases e
        · have hx := h0
          rw [hpq, List.count_append] at hx
          simp [List.count_cons] at hx
        · have hx := h2
          rw [hpq, List.count_append] at hx
          simp [List.count_cons] at hx
          omega
        · have hx := h1
          rw [hpq, List.count_append] at hx
          simp [List.count_cons] at hx
          omega
    rw [hd, if_neg hne]

theorem cache_destroyed_exactly_once_witness :
    (cacheRun ⟨false, (1 : Int), [], 0⟩
      [.ownerDestroy, .loadComplete]).destroyCount = 1 :=
  (cache_destroyed_exactly_once 1 [.ownerDestroy, .loadComplete]
    (by decide) (by decide) (by decide)).1

/-- Claim C4: starting from a fresh cache, for every call sequence in
which every prefix has at least as many `addPendingUpload` dispatches as
completion callbacks (each completion only fires for an upload already
dispatched), the counter at every observation point equals the number of
dispatched-but-not-yet-completed uploads and never goes negative. -/
theorem pending_uploads_counter (es : List CacheEvent)
    (h : ∀ m, m ≤ es.length →
      (es.take m).count .loadComplete ≤ (es.take m).count .addUpload) :
    ∀ p q, es = p ++ q →
      (cacheRun emptyUrlCache p).mPendingUploads =
        (p.count .addUpload : Int) - (p.count .loadComplete : Int) ∧
      0 ≤ (cacheRun emptyUrlCache p).mPendingUploads := by
  intro p q hpq
  have hp : (cacheRun emptyUrlCache p).mPendingUploads =
      (p.count .addUpload : Int) - (p.count .loadComplete : Int) := by
    have hx := cacheRun_pending p emptyUrlCache
    simpa [emptyUrlCache] using hx
  refine ⟨hp, ?_⟩
  have hlen : p.length ≤ es.length := by
    rw [hpq, List.length_append]; omega
  have htake : es.take p.length = p := by
    rw [hpq]; exact List.take_left p q
  have hcount := h p.length hlen
  rw [htake] at hcount
  rw [hp]
  omega

theorem pending_uploads_counter_witness :
    (cacheRun emptyUrlCache [.addUpload]).mPendingUploads =
      (([CacheEvent.addUpload].count .addUpload : Int) -
        ([CacheEvent.addUpload].count .loadComplete : Int)) ∧
    0 ≤ (cacheRun emptyUrlCache [.addUpload]).mPendingUploads :=
  pending_uploads_counter [.addUpload, .loadComplete] (by decide)
    [.addUpload] [.loadComplete] rfl

/-- Claim C2 (code-bug evidence): with the base64 decoder failing on the
binding's payload, `loadResources` does *not* report the failure: it
returns `true`, caches the null blob under the URI, and still dispatches
the vertex-buffer upload with byte range `offset + nullptr` — instead of
returning `false` and skipping the dispatch as the claim states. -/
theorem load_failure_not_reported :
    (loadResources failLoaders
      [⟨"data:application/octet-stream;base64,!!!!", 4, 8, 8,
        true, false, false, false, 0⟩]).1 = true ∧
    (loadResources failLoaders
      [⟨"data:application/octet-stream;base64,!!!!", 4, 8, 8,
        true, false, false, false, 0⟩]).2.dispatches =
      [⟨.vertexUpload, 4, 8⟩] ∧
    (loadResources failLoaders
      [⟨"data:application/octet-stream;base64,!!!!", 4, 8, 8,
        true, false, false, false, 0⟩]).2.cache.mBlobs =
      [("data:application/octet-stream;base64,!!!!", 0)] ∧
    (loadResources failLoaders
      [⟨"data:application/octet-stream;base64,!!!!", 4, 8, 8,
        true, false, false, false, 0⟩]).2.cache.mPendingUploads = 1 := by
  decide

/-- Claim C3 counterexample: the claim reads "contains a comma whose 7
preceding characters equal `;base64`" (any comma), but the code checks the
*first* comma only (`strchr`): on `"data:x;y,;base64,AA"` the claim's
reading accepts while the code rejects. -/
theorem uri_classification_counterexample :
    isBase64 "data:x;y,;base64,AA" = false ∧
    claimIsBase64 "data:x;y,;base64,AA" = true := by
  decide

/-- Claim C3 (amended: the `;base64` marker must precede the *first*
comma): `isBase64` holds iff the URI starts with `data:` and its first
comma sits at index `i ≥ 7` with the 7 characters before it equal to
`;base64`; `isFile` holds iff no position of the URI starts with `://`;
and the three example URIs classify as the claim says. -/
theorem uri_classification (uri : String) :
    (isBase64 uri = true ↔
      uri.toList.take 5 = "data:".toList ∧
      ∃ i, (uri.toList.get? i = some ',' ∧
          ∀ j, j < i → uri.toList.get? j ≠ some ',') ∧
        7 ≤ i ∧ (uri.toList.drop (i - 7)).take 7 = ";base64".toList) ∧
    (isFile uri = true ↔ ¬ ∃ k, (uri.toList.drop k).take 3 = "://".toList) ∧
    isBase64 "data:application/octet-stream;base64,AAAA" = true ∧
    isFile "mesh.bin" = true ∧ isBase64 "mesh.bin" = false ∧
    isBase64 "http://host/mesh.bin" = false ∧
    isFile "http://host/mesh.bin" = false := by
  refine ⟨?_, isFile_iff uri, by decide, by decide, by decide, by decide,
    by decide⟩
  simp only [isBase64]
  by_cases hpre : uri.toList.take 5 = "data:".toList
  · rw [if_pos hpre]
    constructor
    · intro h
      cases hf : firstCommaIdx uri.toList with
      | none => rw [hf] at h; cases h
      | some i =>
        rw [hf] at h
        simp only [Bool.and_eq_true, decide_eq_true_eq] at h
        exact ⟨hpre, i, (firstCommaIdx_eq_some uri.toList i).mp hf, h.1, h.2⟩
    · rintro ⟨-, i, hfirst, h7, hwin⟩
      rw [(firstCommaIdx_eq_some uri.toList i).mpr hfirst]
      simp only [Bool.and_eq_true, decide_eq_true_eq]
      exact ⟨h7, hwin⟩
  · rw [if_neg hpre]
    constructor
    · intro h; simp at h
    · rintro ⟨hp, -⟩
      exact (hpre hp).elim

/-- Claim C5 counterexample: two bindings with the same URI whose load
fails (null blob): the loader capability is invoked twice for that URI,
not at most once. -/
theorem loader_deduplication_counterexample :
    ¬ ((loadResources failLoaders [meshBinding, meshBinding]).2.loaderCalls.count
        "mesh.bin" ≤ 1) := by
  decide

/-- Claim C5 (amended: provided every load of the URI succeeds, i.e.
returns a non-null blob): across any binding sequence the loader
capability is invoked at most once for that URI, and every binding that
resolved the URI used one identical blob pointer. -/
theorem loader_invoked_at_most_once (L : Loaders) (bs : List BufferBinding)
    (u : String)
    (h1 : isBase64 u = true → ∀ t, loadBase64 L u t ≠ 0)
    (h2 : isFile u = true → ∀ t, loadFile L u t ≠ 0) :
    (loadResources L bs).2.loaderCalls.count u ≤ 1 ∧
    ∃ v, ∀ pr ∈ (loadResources L bs).2.resolved, pr.1 = u → pr.2 = v := by
  have hinit : DedupInv u initState :=
    Or.inl ⟨rfl, by simp [initState], by simp [initState]⟩
  have hfin := dedup_go u L h1 h2 bs initState hinit
  rcases hfin with ⟨_, hc, hr⟩ | ⟨v, _, _, hc, hr⟩
  · refine ⟨?_, 0, fun pr hm hpu => (hr pr hm hpu).elim⟩
    have hc' : (loadResources L bs).2.loaderCalls.count u = 0 := hc
    omega
  · exact ⟨hc, v, hr⟩

theorem loader_invoked_at_most_once_witness :
    (loadResources ⟨fun _ _ => 0, fun _ _ => 7⟩
      [meshBinding, meshBinding]).2.loaderCalls.count "mesh.bin" ≤ 1 ∧
    ∃ v, ∀ pr ∈ (loadResources ⟨fun _ _ => 0, fun _ _ => 7⟩
      [meshBinding, meshBinding]).2.resolved, pr.1 = "mesh.bin" → pr.2 = v :=
  loader_invoked_at_most_once ⟨fun _ _ => 0, fun _ _ => 7⟩
    [meshBinding, meshBinding] "mesh.bin"
    (fun h => absurd h (by decide))
    (fun _ t => by simp [loadFile])

/-- Claim C6: a binding with none of the recognized targets makes
`loadResources` return `false` right at that binding: the examined
bindings stop there (none of the later bindings is processed), the
pending-upload counter and the dispatch trace stay exactly those of the
earlier bindings (no rollback), and completion callbacks arriving later
still decrement the counter one each. -/
theorem malformed_binding_aborts (L : Loaders) (pre post : List BufferBinding)
    (bb : BufferBinding)
    (h1 : bb.vertexBuffer = false) (h2 : bb.indexBuffer = false)
    (h3 : bb.animationBuffer = false) (h4 : bb.orientationBuffer = false)
    (hpre : (loadResourcesGo L initState pre).1 = true) :
    (loadResources L (pre ++ bb :: post)).1 = false ∧
    (loadResources L (pre ++ bb :: post)).2.examined =
      (loadResourcesGo L initState pre).2.examined ++ [bb.uri] ∧
    (loadResources L (pre ++ bb :: post)).2.cache.mPendingUploads =
      (loadResourcesGo L initState pre).2.cache.mPendingUploads ∧
    (loadResources L (pre ++ bb :: post)).2.dispatches =
      (loadResourcesGo L initState pre).2.dispatches ∧
    ∀ m : Nat,
      (cacheRun (loadResources L (pre ++ bb :: post)).2.cache
        (List.replicate m .loadComplete)).mPendingUploads =
      (loadResources L (pre ++ bb :: post)).2.cache.mPendingUploads - m := by
  have hdrain : ∀ (c : UrlCache) (m : Nat),
      (cacheRun c (List.replicate m .loadComplete)).mPendingUploads =
        c.mPendingUploads - m := by
    intro c m
    rw [cacheRun_pending, (count_replicate_load m).1, (count_replicate_load m).2]
    omega
  have hsplit : loadResources L (pre ++ bb :: post) =
      loadResourcesGo L (loadResourcesGo L initState pre).2 (bb :: post) :=
    loadResourcesGo_append L pre (bb :: post) initState hpre
  obtain ⟨stf, hstf⟩ :=
    stepBinding_malformed L (loadResourcesGo L initState pre).2 bb h1 h2 h3 h4
  obtain ⟨hp, hd, he⟩ :=
    stepBinding_error_state L (loadResourcesGo L initState pre).2 bb stf hstf
  have hres : loadResources L (pre ++ bb :: post) = (false, stf) := by
    rw [hsplit, loadResourcesGo_cons, hstf]
  rw [hres]
  exact ⟨rfl, he, hp, hd, fun m => hdrain stf.cache m⟩

theorem malformed_binding_aborts_witness :
    (loadResources scenarioLoaders
      ([⟨"a.bin", 0, 10, 10, true, false, false, false, 0⟩] ++
        ⟨"b.bin", 4, 10, 10, false, false, false, false, 0⟩ ::
        [⟨"c.bin", 0, 10, 10, true, false, false, false, 0⟩])).1 = false :=
  (malformed_binding_aborts scenarioLoaders
    [⟨"a.bin", 0, 10, 10, true, false, false, false, 0⟩]
    [⟨"c.bin", 0, 10, 10, true, false, false, false, 0⟩]
    ⟨"b.bin", 4, 10, 10, false, false, false, false, 0⟩
    rfl rfl rfl rfl (by decide)).1

/-- Claim C7 counterexample: `addResource` called twice with the same URI
does *not* keep the first blob: the lookup afterwards returns the second
blob, not the first. -/
theorem first_writer_wins_counterexample :
    ((emptyUrlCache.addResource "u" 1).addResource "u" 2).getResource "u" = 2 ∧
    ¬ ((emptyUrlCache.addResource "u" 1).addResource "u" 2).getResource "u" = 1 := by
  decide

/-- Claim C7 (amended: *last* writer wins): when `addResource` is called
twice with the same URI key, the second call replaces the mapping and
lookup afterwards returns the blob from the second call. -/
theorem addResource_last_writer_wins (c : UrlCache) (u : String)
    (v1 v2 : Nat) :
    ((c.addResource u v1).addResource u v2).getResource u = v2 :=
  getResource_addResource_self (c.addResource u v1) u v2

/-- Claim C8: for the scenario of two vertex-buffer bindings with distinct
resolvable URIs plus one animation-copy binding with a third resolvable
URI, `loadResources` returns `true` with `pendingUploads = 2` at return,
and after the owner releases the cache and both completion callbacks fire
the cache reaches the destroyed state (deleted exactly once, counter
drained to zero). -/
theorem three_binding_scenario :
    (loadResources scenarioLoaders scenarioBindings).1 = true ∧
    (loadResources scenarioLoaders scenarioBindings).2.cache.mPendingUploads = 2 ∧
    (cacheRun (loadResources scenarioLoaders scenarioBindings).2.cache
      [.ownerDestroy, .loadComplete, .loadComplete]).destroyCount = 1 ∧
    (cacheRun (loadResources scenarioLoaders scenarioBindings).2.cache
      [.ownerDestroy, .loadComplete, .loadComplete]).mPendingUploads = 0 := by
  decide

/-- Claim C10: when the file load of a binding's URI fails (null blob),
`loadResources` still stores the null result in the cache and continues,
dispatching the upload with byte range `offset + nullptr`; and since
`getResource` answers null both for an absent URI and for a stored null
blob, a second binding with the same URI misses the cache and invokes the
loader again. -/
theorem null_blob_cached_and_retried (L : Loaders) (bb : BufferBinding)
    (hb64 : isBase64 bb.uri = false) (hfile : isFile bb.uri = true)
    (hfail : L.readFile bb.uri bb.totalSize = 0)
    (hv : bb.vertexBuffer = true) :
    (loadResources L [bb, bb]).1 = true ∧
    (loadResources L [bb, bb]).2.loaderCalls = [bb.uri, bb.uri] ∧
    mapFind (loadResources L [bb, bb]).2.cache.mBlobs bb.uri = some 0 ∧
    (loadResources L [bb, bb]).2.dispatches =
      [⟨.vertexUpload, bb.offset + 0, bb.size⟩,
       ⟨.vertexUpload, bb.offset + 0, bb.size⟩] := by
  have hload : loadFile L bb.uri bb.totalSize = 0 := hfail
  simp [loadResources, loadResourcesGo, stepBinding, resolveData_eq,
    dispatchBinding, initState, emptyUrlCache, UrlCache.getResource,
    UrlCache.addResource, UrlCache.addPendingUpload, mapFind, mapAssign,
    hb64, hfile, hload, hv]

theorem null_blob_cached_and_retried_witness :
    (loadResources failLoaders [meshBinding, meshBinding]).1 = true ∧
    (loadResources failLoaders [meshBinding, meshBinding]).2.loaderCalls =
      [meshBinding.uri, meshBinding.uri] ∧
    mapFind (loadResources failLoaders
      [meshBinding, meshBinding]).2.cache.mBlobs meshBinding.uri = some 0 ∧
    (loadResources failLoaders [meshBinding, meshBinding]).2.dispatches =
      [⟨.vertexUpload, meshBinding.offset + 0, meshBinding.size⟩,
       ⟨.vertexUpload, meshBinding.offset + 0, meshBinding.size⟩] :=
  null_blob_cached_and_retried failLoaders meshBinding
    (by decide) (by decide) rfl rfl

end gltfio
